import Mathlib

/-!
Shallow embedding of the province-geometry module of `src/components/SpainMap.tsx`
(the region partitioner, centroid/area estimator, marker layout and style
resolution), together with theorems checking the specification's claims.

Numbers are modelled as rationals (`ℚ`); the only real-number arithmetic in the
source is the trigonometric marker placement, modelled over `ℝ`.
-/

namespace FintechMap

/-- A GeoJSON property value.  The source only ever distinguishes string values
from everything else (`typeof value === "string"`). -/
inductive PropValue where
  | str (s : String)
  | nonString
deriving DecidableEq

/-- A property bag: association list, first binding for a key wins. -/
abbrev Props := List (String × PropValue)

/-- `props[key]` lookup. -/
def getProp (props : Props) (key : String) : Option PropValue :=
  (props.find? (fun p => p.1 = key)).map (fun p => p.2)

/-- Object-spread update `{ ...props, key: value }`: the result maps `key` to
`value` and every other key exactly as `props` does (first-binding-wins lookup
makes prepending the JS override semantics). -/
def setProp (props : Props) (key : String) (v : PropValue) : Props :=
  (key, v) :: props

/-- A GeoJSON position: an array of numbers; the source reads `coord[0]` (lng)
and `coord[1]` (lat), defaulting missing entries to `0` where it says so. -/
abbrev Coord := List ℚ

/-- A linear ring: ordered list of positions. -/
abbrev LinearRing := List Coord

/-- A polygon: list of rings (first = outer ring). -/
abbrev Polygon := List LinearRing

/-- Feature geometry: the component only distinguishes `MultiPolygon` from
everything else; non-multi-polygon geometry (plain polygons) passes through
the splitter unchanged. -/
inductive Geometry where
  | polygon (coordinates : Polygon)
  | multiPolygon (coordinates : List Polygon)
deriving DecidableEq

/-- A GeoJSON feature: property bag (possibly `null`) plus geometry. -/
structure Feature where
  properties : Option Props
  geometry : Geometry
deriving DecidableEq

/-- A GeoJSON feature collection. -/
structure FeatureCollection where
  features : List Feature
deriving DecidableEq

/-- A named anchor point used to split archipelago provinces. -/
structure IslandAnchor where
  name : String
  lat : ℚ
  lng : ℚ
deriving DecidableEq

/-- The static `ISLAND_SPLIT_ANCHORS` table of `SpainMap.tsx`. -/
def ISLAND_SPLIT_ANCHORS : List (String × List IslandAnchor) :=
  [ ("Illes Balears",
      [ ⟨"Mallorca", 39.6, 2.9⟩
      , ⟨"Menorca", 39.95, 4.1⟩
      , ⟨"Ibiza", 38.98, 1.43⟩
      , ⟨"Formentera", 38.7, 1.45⟩ ])
  , ("Las Palmas",
      [ ⟨"Lanzarote", 29.03, -13.63⟩
      , ⟨"Fuerteventura", 28.36, -14.05⟩
      , ⟨"Gran Canaria", 27.95, -15.6⟩ ])
  , ("Santa Cruz De Tenerife",
      [ ⟨"Tenerife", 28.29, -16.62⟩
      , ⟨"La Palma", 28.69, -17.86⟩
      , ⟨"La Gomera", 28.11, -17.23⟩
      , ⟨"El Hierro", 27.73, -18.03⟩ ]) ]

/-- `ISLAND_SPLIT_ANCHORS[provinceName]` lookup. -/
def anchorsFor (provinceName : String) : Option (List IslandAnchor) :=
  (ISLAND_SPLIT_ANCHORS.find? (fun e => e.1 = provinceName)).map (fun e => e.2)

/-- `getStringProperty` of `SpainMap.tsx`: the property value if present and a
string, otherwise `null`. -/
def getStringProperty (feature : Feature) (key : String) : Option String :=
  match feature.properties with
  | none => none
  | some props =>
    match getProp props key with
    | some (.str s) => some s
    | _ => none

/-- `getRawProvinceName`: ordered fallback `name` → `NAME` → `provincia` →
`"Desconocida"`. -/
def getRawProvinceName (feature : Feature) : String :=
  ((getStringProperty feature "name" <|> getStringProperty feature "NAME") <|>
    getStringProperty feature "provincia").getD "Desconocida"

/-- `getProvinceName`: the resolved name (`mapProvinceName` if set by the
splitter, else the raw name). -/
def getProvinceName (feature : Feature) : String :=
  (getStringProperty feature "mapProvinceName").getD (getRawProvinceName feature)

/-- `getFeatureLabel`: the display label (`mapDisplayName` if set by the
splitter, else the raw name). -/
def getFeatureLabel (feature : Feature) : String :=
  (getStringProperty feature "mapDisplayName").getD (getRawProvinceName feature)

/-- The squared-distance expression of `nearestAnchor`'s loop body. -/
def anchorDistance (lat lng : ℚ) (anchor : IslandAnchor) : ℚ :=
  (anchor.lat - lat) * (anchor.lat - lat) + (anchor.lng - lng) * (anchor.lng - lng)

/-- One iteration of `nearestAnchor`'s loop.  `bestDistance` starts at
`Number.POSITIVE_INFINITY`, modelled as `⊤ : WithTop ℚ`. -/
def nearestStep (lat lng : ℚ) (best : Option IslandAnchor × WithTop ℚ)
    (anchor : IslandAnchor) : Option IslandAnchor × WithTop ℚ :=
  if (anchorDistance lat lng anchor : WithTop ℚ) < best.2
  then (some anchor, (anchorDistance lat lng anchor : WithTop ℚ))
  else best

/-- `nearestAnchor` of `SpainMap.tsx`.  The source initialises
`best = anchors[0]` (undefined — `none` — on an empty array) and
`bestDistance = +∞`, so the loop always replaces `best` at the first anchor;
the result is the first anchor of strictly minimal squared distance. -/
def nearestAnchor (lat lng : ℚ) (anchors : List IslandAnchor) :
    Option IslandAnchor :=
  (anchors.foldl (nearestStep lat lng) (anchors.head?, (⊤ : WithTop ℚ))).1

/-- The two coordinate sums accumulated by `polygonCentroid`'s loop:
`(lngSum, latSum)`, with `coord[0] ?? 0` / `coord[1] ?? 0` defaults. -/
def ringSums (ring : LinearRing) : ℚ × ℚ :=
  ring.foldl (fun acc coord => (acc.1 + coord.getD 0 0, acc.2 + coord.getD 1 0))
    (0, 0)

/-- `polygonCentroid`: unweighted vertex mean of the first (outer) ring,
`[0, 0]` fallback for an empty ring. -/
def polygonCentroid (polygon : Polygon) : ℚ × ℚ :=
  let ring := polygon.headD []
  if ring.length = 0 then (0, 0)
  else ((ringSums ring).2 / ring.length, (ringSums ring).1 / ring.length)

/-- The anchor name a polygon piece is assigned to: the `nearestAnchor` of the
piece's `polygonCentroid` (`groups.get(anchor.name)?.push(polygon)` keys groups
by anchor name). -/
def pieceAnchorName (anchors : List IslandAnchor) (polygon : Polygon) :
    Option String :=
  (nearestAnchor (polygonCentroid polygon).1 (polygonCentroid polygon).2
    anchors).map IslandAnchor.name

/-- The pieces of the multi-polygon `coords` assigned to `anchor`'s group, in
input order (the JS `Map`-of-arrays grouping equals this per-anchor filter
because every table entry has pairwise-distinct anchor names, see
`table_anchor_names_nodup`). -/
def anchorPieces (anchors : List IslandAnchor) (coords : List Polygon)
    (anchor : IslandAnchor) : List Polygon :=
  coords.filter (fun polygon => pieceAnchorName anchors polygon = some anchor.name)

/-- The feature emitted by `splitIslandFeature` for one anchor: same feature
with `mapProvinceName` / `mapDisplayName` added to the property bag
(`...(feature.properties ?? {})` spread) and the anchor's pieces as geometry. -/
def splitFeatureFor (feature : Feature) (provinceName : String)
    (anchor : IslandAnchor) (coordinates : List Polygon) : Feature :=
  { feature with
    properties := some (setProp
      (setProp (feature.properties.getD []) "mapProvinceName" (.str provinceName))
      "mapDisplayName" (.str anchor.name))
    geometry := .multiPolygon coordinates }

/-- `splitIslandFeature` of `SpainMap.tsx`. -/
def splitIslandFeature (feature : Feature) : List Feature :=
  let provinceName := getRawProvinceName feature
  match anchorsFor provinceName, feature.geometry with
  | some anchors, .multiPolygon coords =>
    let splitFeatures := anchors.filterMap (fun anchor =>
      let coordinates := anchorPieces anchors coords anchor
      if coordinates.length = 0 then none
      else some (splitFeatureFor feature provinceName anchor coordinates))
    if splitFeatures.length > 0 then splitFeatures else [feature]
  | _, _ => [feature]

/-- `splitArchipelagos`: flat-map the splitter over the collection. -/
def splitArchipelagos (data : FeatureCollection) : FeatureCollection :=
  { data with features := data.features.flatMap splitIslandFeature }

/-- The anchors of `anchors` whose group received at least one piece — the
ones `splitIslandFeature` emits a region for. -/
def occupiedAnchors (anchors : List IslandAnchor) (coords : List Polygon) :
    List IslandAnchor :=
  anchors.filter (fun anchor => !decide ((anchorPieces anchors coords anchor).length = 0))

/-- The polygon pieces of a feature (a plain polygon counts as one piece). -/
def featurePolygons (feature : Feature) : List Polygon :=
  match feature.geometry with
  | .polygon coordinates => [coordinates]
  | .multiPolygon coordinates => coordinates

/-- Number of coordinate positions in one polygon piece. -/
def polygonVertexCount (polygon : Polygon) : ℕ :=
  (polygon.map List.length).sum

/-- Total number of coordinate positions in a feature's geometry. -/
def featureVertexCount (feature : Feature) : ℕ :=
  ((featurePolygons feature).map polygonVertexCount).sum

/-- Total vertex count of a collection. -/
def collectionVertexCount (data : FeatureCollection) : ℕ :=
  (data.features.map featureVertexCount).sum

/-- Leaflet's `coordsToLatLng`: `new LatLng(coords[1], coords[0])`, which
throws (`none`) when either entry is missing. -/
def coordToLatLng (coord : Coord) : Option (ℚ × ℚ) :=
  match coord with
  | lng :: lat :: _ => some (lat, lng)
  | _ => none

/-- Convert a list of positions via `coordToLatLng`, propagating the throw on
any malformed position. -/
def collectLatLngs : List Coord → Option (List (ℚ × ℚ))
  | [] => some []
  | coord :: rest =>
    match coordToLatLng coord, collectLatLngs rest with
    | some p, some ps => some (p :: ps)
    | _, _ => none

/-- All `LatLng`s Leaflet collects for a feature (every ring of every
polygon); `none` if any position is malformed. -/
def featureLatLngs (feature : Feature) : Option (List (ℚ × ℚ)) :=
  match feature.geometry with
  | .polygon rings => collectLatLngs (rings.flatMap id)
  | .multiPolygon polys => collectLatLngs ((polys.flatMap id).flatMap id)

/-- A Leaflet `LatLngBounds`. -/
structure Bounds where
  south : ℚ
  west : ℚ
  north : ℚ
  east : ℚ
deriving DecidableEq

/-- Extending bounds with one point. -/
def extendBounds (b : Bounds) (p : ℚ × ℚ) : Bounds :=
  ⟨min b.south p.1, min b.west p.2, max b.north p.1, max b.east p.2⟩

/-- `L.geoJSON(feature).getBounds()`: bounding box of all the feature's
points; invalid (`none`, Leaflet would throw on use) when there are none. -/
def featureBounds (feature : Feature) : Option Bounds :=
  match featureLatLngs feature with
  | some (p :: ps) => some (ps.foldl extendBounds ⟨p.1, p.2, p.1, p.2⟩)
  | _ => none

/-- `featureCentroid`: center of the feature's bounding box. -/
def featureCentroid (feature : Feature) : Option (ℚ × ℚ) :=
  (featureBounds feature).map
    (fun b => ((b.south + b.north) / 2, (b.west + b.east) / 2))

/-- `featureAreaScore`: `|north - south| * |east - west|` of the bounding
box. -/
def featureAreaScore (feature : Feature) : Option ℚ :=
  (featureBounds feature).map (fun b => |b.north - b.south| * |b.east - b.west|)

/-- Center and score of one feature, as computed inside the
`provinceCentroids` loop. -/
def featureMeasure (feature : Feature) : Option ((ℚ × ℚ) × ℚ) :=
  match featureCentroid feature, featureAreaScore feature with
  | some center, some score => some (center, score)
  | _, _ => none

/-- Association-map lookup (JS `Map.get`). -/
def mapGet {α : Type} (m : List (String × α)) (k : String) : Option α :=
  (m.find? (fun e => e.1 = k)).map (fun e => e.2)

/-- Association-map update (JS `Map.set`): replace in place or append. -/
def mapSet {α : Type} : List (String × α) → String → α → List (String × α)
  | [], k, v => [(k, v)]
  | (k', v') :: rest, k, v =>
    if k' = k then (k, v) :: rest else (k', v') :: mapSet rest k v

/-- The name → (center, score) map built by the `provinceCentroids` loop:
keep an entry only when no entry exists yet or the new score is strictly
greater.  `none` models the crash on a feature with no measurable bounds. -/
def buildCentroidMap :
    List Feature → List (String × ((ℚ × ℚ) × ℚ)) →
    Option (List (String × ((ℚ × ℚ) × ℚ)))
  | [], acc => some acc
  | feature :: rest, acc =>
    match featureMeasure feature with
    | some (center, score) =>
      let provinceName := getProvinceName feature
      let acc' :=
        match mapGet acc provinceName with
        | some current =>
          if score > current.2 then mapSet acc provinceName (center, score) else acc
        | none => mapSet acc provinceName (center, score)
      buildCentroidMap rest acc'
    | none => none

/-- `provinceCentroids`: the deduplicated map, with scores stripped. -/
def provinceCentroids (features : List Feature) :
    Option (List (String × (ℚ × ℚ))) :=
  (buildCentroidMap features []).map (fun m => m.map (fun e => (e.1, e.2.1)))

/-- The `provincias` record joined onto a profile. -/
structure Province where
  nombre : String
deriving DecidableEq

/-- A `ProfileWithProvince` row, as read by the map component. -/
structure Profile where
  id : String
  full_name : Option String
  avatar_url : Option String
  username : Option String
  provincias : Option Province
deriving DecidableEq

/-- `p.provincias?.nombre`, with the JS-falsy empty string treated like a
missing name (`if (!provName) continue`). -/
def profileProvinceName (p : Profile) : Option String :=
  match p.provincias with
  | none => none
  | some prov => if prov.nombre = "" then none else some prov.nombre

/-- One iteration of the `profilesByProvince` loop: append the profile to its
province's group (creating the group on first sight), skipping profiles
without a province name. -/
def groupStep (map : List (String × List Profile)) (p : Profile) :
    List (String × List Profile) :=
  match profileProvinceName p with
  | none => map
  | some provName =>
    mapSet map provName ((mapGet map provName).getD [] ++ [p])

/-- `profilesByProvince`: group profiles by province name (insertion-ordered
map of arrays, each group in input order). -/
def profilesByProvince (profiles : List Profile) :
    List (String × List Profile) :=
  profiles.foldl groupStep []

/-- A profile that contributes a marker: a nonempty province name that has an
entry in the centroid map. -/
def hasMarker (cmap : List (String × (ℚ × ℚ))) (p : Profile) : Bool :=
  match profileProvinceName p with
  | none => false
  | some n => (mapGet cmap n).isSome

/-- `occupiedProvinces`: the province names with at least one profile. -/
def occupiedProvinces (profiles : List Profile) : List String :=
  (profilesByProvince profiles).map (fun e => e.1)

/-- One marker position of the `avatarMarkers` loop: the centroid itself for a
single occupant, otherwise a point on the circle of radius
`min(0.15 + count * 0.02, 0.5)` at angle `2π·i/count`. -/
noncomputable def markerPosition (center : ℚ × ℚ) (count i : ℕ) : ℝ × ℝ :=
  if count > 1 then
    let angle : ℝ := 2 * Real.pi * i / count
    let radius : ℝ := min (0.15 + (count : ℝ) * 0.02) 0.5
    ((center.1 : ℝ) + Real.cos angle * radius,
     (center.2 : ℝ) + Real.sin angle * radius)
  else ((center.1 : ℝ), (center.2 : ℝ))

/-- The marker sequence the spec calls `layout(center, n)`. -/
noncomputable def layout (center : ℚ × ℚ) (n : ℕ) : List (ℝ × ℝ) :=
  (List.range n).map (fun i => markerPosition center n i)

/-- A rendered avatar marker. -/
structure Marker where
  key : String
  position : ℝ × ℝ
  profile : Profile

/-- `avatarMarkers`: for each province group with a known centroid, one marker
per profile, spread around the centroid; groups without a centroid are skipped
silently. -/
noncomputable def avatarMarkers (profiles : List Profile)
    (centroids : List (String × (ℚ × ℚ))) : List Marker :=
  (profilesByProvince profiles).flatMap (fun g =>
    match mapGet centroids g.1 with
    | none => []
    | some center =>
      g.2.enum.map (fun ip =>
        { key := ip.2.id, position := markerPosition center g.2.length ip.1,
          profile := ip.2 }))

/-- A Leaflet path style; `opacity` is optional (absent in the hover and
selected styles). -/
structure PathStyle where
  fillColor : String
  weight : ℚ
  opacity : Option ℚ
  color : String
  fillOpacity : ℚ
deriving DecidableEq

def DEFAULT_STYLE : PathStyle := ⟨"#2f3336", 1, some 1, "#536471", 0.7⟩

def HOVER_STYLE : PathStyle := ⟨"#1d9bf0", 2, none, "#1d9bf0", 0.45⟩

def SELECTED_STYLE : PathStyle := ⟨"#1d9bf0", 2.5, none, "#8ecdf7", 0.75⟩

def OCCUPIED_STYLE : PathStyle := ⟨"#00ba7c", 1, some 1, "#00ba7c", 0.4⟩

/-- `styleFeature`: selected > occupied > default (hover is applied by the
event handlers, not here). -/
def styleFeature (feature : Option Feature) (selectedProvince : Option String)
    (occupied : List String) : PathStyle :=
  match feature with
  | none => DEFAULT_STYLE
  | some f =>
    let provinceName := getProvinceName f
    if some provinceName = selectedProvince then SELECTED_STYLE
    else if provinceName ∈ occupied then OCCUPIED_STYLE
    else DEFAULT_STYLE

/-- The mutable view state of the rendered map layers.  Layers are keyed by
their resolved province name (one layer per name). -/
structure MapViewState where
  styles : String → PathStyle
  prevHovered : Option String
  hovered : Option String

/-- Point update of the per-layer style table (`layer.setStyle`). -/
def updateStyle (styles : String → PathStyle) (name : String) (s : PathStyle) :
    String → PathStyle :=
  fun n => if n = name then s else styles n

/-- The initial render: react-leaflet applies `styleFeature` to every layer;
for a layer whose feature resolves to `name` that is exactly this style (see
`styleFeature_eq_initial`). -/
def initialState (selected : Option String) (occupied : List String) :
    MapViewState :=
  { styles := fun name =>
      if some name = selected then SELECTED_STYLE
      else if name ∈ occupied then OCCUPIED_STYLE
      else DEFAULT_STYLE
    prevHovered := none
    hovered := none }

/-- The `mouseover` handler of `onEachFeature`: defensively reset the
previously hovered layer, record the new hover, and apply the hover style
unless the layer is the selected province. -/
def mouseover (selected : Option String) (occupied : List String)
    (name : String) (st : MapViewState) : MapViewState :=
  let st1 :=
    match st.prevHovered with
    | some prev =>
      if prev = name then st
      else if some prev = selected then st
      else
        let reset := if prev ∈ occupied then OCCUPIED_STYLE else DEFAULT_STYLE
        { st with styles := updateStyle st.styles prev reset }
    | none => st
  let st2 := { st1 with prevHovered := some name, hovered := some name }
  if some name = selected then st2
  else { st2 with styles := updateStyle st2.styles name HOVER_STYLE }

/-- The `mouseout` handler of `onEachFeature`. -/
def mouseout (selected : Option String) (occupied : List String)
    (name : String) (st : MapViewState) : MapViewState :=
  let st1 :=
    if st.prevHovered = some name then { st with prevHovered := none } else st
  let st2 := { st1 with hovered := none }
  if some name = selected then st2
  else
    let reset := if name ∈ occupied then OCCUPIED_STYLE else DEFAULT_STYLE
    { st2 with styles := updateStyle st2.styles name reset }

/-- Modelled from the spec: the pure 4-way style-priority resolution
"selected > hovered > occupied > default" that §4.4 says the rendering
reproduces. -/
def resolveStyle (regionName : String) (selectedName hoveredName : Option String)
    (isOccupied : Bool) : PathStyle :=
  if selectedName = some regionName then SELECTED_STYLE
  else if hoveredName = some regionName then HOVER_STYLE
  else if isOccupied then OCCUPIED_STYLE
  else DEFAULT_STYLE

/-- One step of the spec's deduplication rule: replace the kept entry only
when the new score is strictly greater. -/
def keepStep (kept : Option ((ℚ × ℚ) × ℚ)) (e : (ℚ × ℚ) × ℚ) :
    Option ((ℚ × ℚ) × ℚ) :=
  match kept with
  | none => some e
  | some cur => if e.2 > cur.2 then some e else kept

/-- Folding the deduplication rule over a list of entries, from a given kept
entry. -/
def keepFold (kept : Option ((ℚ × ℚ) × ℚ)) (entries : List ((ℚ × ℚ) × ℚ)) :
    Option ((ℚ × ℚ) × ℚ) :=
  entries.foldl keepStep kept

/-- Modelled from the spec: §4.2's deduplication rule — "if a name repeats,
keep the entry with strictly greater score; ties keep the first-seen entry",
as a left fold over the entries carrying one name. -/
def keepGreater (entries : List ((ℚ × ℚ) × ℚ)) : Option ((ℚ × ℚ) × ℚ) :=
  keepFold none entries

/-! ### Concrete fixtures used to instantiate the theorems -/

/-- A Balearic multi-polygon with one single-vertex piece sitting exactly on
each of the four anchors. -/
def balCoords : List Polygon :=
  [ [[[2.9, 39.6]]]
  , [[[4.1, 39.95]]]
  , [[[1.43, 38.98]]]
  , [[[1.45, 38.7]]] ]

/-- The Balearic Islands feature built from `balCoords`. -/
def balFeature : Feature :=
  { properties := some [("name", .str "Illes Balears")]
  , geometry := .multiPolygon balCoords }

/-- The anchor list of the Balearic Islands (the table's first entry). -/
def balAnchors : List IslandAnchor :=
  [ ⟨"Mallorca", 39.6, 2.9⟩
  , ⟨"Menorca", 39.95, 4.1⟩
  , ⟨"Ibiza", 38.98, 1.43⟩
  , ⟨"Formentera", 38.7, 1.45⟩ ]

/-- An archipelago province with an empty multi-polygon (degenerate input). -/
def emptyArchipelago : Feature :=
  { properties := some [("name", .str "Illes Balears")]
  , geometry := .multiPolygon [] }

/-- A region named `X` whose bounding box scores 10. -/
def dupFeatureSmall : Feature :=
  { properties := some [("name", .str "X")]
  , geometry := .polygon [[[0, 0], [2, 5]]] }

/-- A second region named `X` whose bounding box scores 20. -/
def dupFeatureLarge : Feature :=
  { properties := some [("name", .str "X")]
  , geometry := .polygon [[[0, 0], [4, 5]]] }

/-- A profile living in province `X` (present in the centroid map). -/
def profileX : Profile := ⟨"u1", none, none, none, some ⟨"X"⟩⟩

/-- A profile living in province `Y` (absent from the centroid map). -/
def profileY : Profile := ⟨"u2", none, none, none, some ⟨"Y"⟩⟩

/-- A profile with no province record. -/
def profileNoProv : Profile := ⟨"u3", none, none, none, none⟩

/-- A profile whose province name is the empty string. -/
def profileBlank : Profile := ⟨"u4", none, none, none, some ⟨""⟩⟩

/-! ### Helper lemmas -/

/-- `styleFeature` on a layer's feature is the initial per-name style table at
the feature's resolved name. -/
lemma styleFeature_eq_initial (f : Feature) (sel : Option String)
    (occ : List String) :
    styleFeature (some f) sel occ = (initialState sel occ).styles (getProvinceName f) :=
  rfl

lemma getProp_setProp_self (props : Props) (key : String) (v : PropValue) :
    getProp (setProp props key v) key = some v := by
  simp [getProp, setProp, List.find?]

lemma getProp_setProp_other (props : Props) (key k' : String) (v : PropValue)
    (h : k' ≠ key) : getProp (setProp props key v) k' = getProp props k' := by
  have h' : ¬ (key = k') := fun e => h e.symm
  simp [getProp, setProp, List.find?, h']

/-- The fold inside `nearestAnchor`, started after the first anchor has been
taken: it returns an element of the candidates (or the seed) of minimal
distance. -/
lemma foldl_nearestStep (lat lng : ℚ) (l : List IslandAnchor) :
    ∀ a : IslandAnchor,
      ∃ c, l.foldl (nearestStep lat lng)
            (some a, (anchorDistance lat lng a : WithTop ℚ))
          = (some c, (anchorDistance lat lng c : WithTop ℚ))
        ∧ (c = a ∨ c ∈ l)
        ∧ anchorDistance lat lng c ≤ anchorDistance lat lng a
        ∧ ∀ b ∈ l, anchorDistance lat lng c ≤ anchorDistance lat lng b := by
  induction l with
  | nil =>
    intro a
    exact ⟨a, rfl, Or.inl rfl, le_refl _, by simp⟩
  | cons x xs ih =>
    intro a
    by_cases h : anchorDistance lat lng x < anchorDistance lat lng a
    · obtain ⟨c, hfold, hmem, hle, hmin⟩ := ih x
      refine ⟨c, ?_, ?_, ?_, ?_⟩
      · rw [List.foldl_cons]
        have hstep : nearestStep lat lng
            (some a, (anchorDistance lat lng a : WithTop ℚ)) x
            = (some x, (anchorDistance lat lng x : WithTop ℚ)) := by
          simp [nearestStep, WithTop.coe_lt_coe, h]
        rw [hstep, hfold]
      · rcases hmem with rfl | hc
        · exact Or.inr (List.mem_cons_self _ _)
        · exact Or.inr (List.mem_cons_of_mem _ hc)
      · exact le_trans hle (le_of_lt h)
      · intro b hb
        rcases List.mem_cons.mp hb with rfl | hb
        · exact hle
        · exact hmin b hb
    · obtain ⟨c, hfold, hmem, hle, hmin⟩ := ih a
      refine ⟨c, ?_, ?_, hle, ?_⟩
      · rw [List.foldl_cons]
        have hstep : nearestStep lat lng
            (some a, (anchorDistance lat lng a : WithTop ℚ)) x
            = (some a, (anchorDistance lat lng a : WithTop ℚ)) := by
          simp [nearestStep, WithTop.coe_lt_coe, h]
        rw [hstep, hfold]
      · rcases hmem with rfl | hc
        · exact Or.inl rfl
        · exact Or.inr (List.mem_cons_of_mem _ hc)
      · intro b hb
        rcases List.mem_cons.mp hb with rfl | hb
        · exact le_trans hle (le_of_not_lt h)
        · exact hmin b hb

/-- `nearestAnchor` on a nonempty anchor list returns a member of minimal
squared distance. -/
lemma nearestAnchor_min (lat lng : ℚ) (anchors : List IslandAnchor)
    (h : anchors ≠ []) :
    ∃ c, nearestAnchor lat lng anchors = some c ∧ c ∈ anchors
      ∧ ∀ b ∈ anchors, anchorDistance lat lng c ≤ anchorDistance lat lng b := by
  obtain ⟨a, rest, rfl⟩ := List.exists_cons_of_ne_nil h
  have hfirst : nearestStep lat lng ((a :: rest).head?, (⊤ : WithTop ℚ)) a
      = (some a, (anchorDistance lat lng a : WithTop ℚ)) := by
    simp [nearestStep]
  obtain ⟨c, hfold, hmem, hle, hmin⟩ := foldl_nearestStep lat lng rest a
  refine ⟨c, ?_, ?_, ?_⟩
  · unfold nearestAnchor
    rw [List.foldl_cons, hfirst, hfold]
  · rcases hmem with rfl | hc
    · exact List.mem_cons_self _ _
    · exact List.mem_cons_of_mem _ hc
  · intro b hb
    rcases List.mem_cons.mp hb with rfl | hb
    · exact hle
    · exact hmin b hb

/-! ### Claim theorems: name resolution, centroid totality, assignment, styles -/

/-- C7 counterexample: a feature with no name property at all resolves to the
Spanish sentinel `"Desconocida"`, not to the literal string `"unknown"`. -/
theorem name_sentinel_counterexample :
    getRawProvinceName { properties := none, geometry := .multiPolygon [] } = "Desconocida"
    ∧ getRawProvinceName { properties := none, geometry := .multiPolygon [] } ≠ "unknown" := by
  constructor
  · rfl
  · decide

/-- C7 (amended): name resolution is total: it tries `name`, `NAME`,
`provincia` in order, takes the first present string, and otherwise returns
the literal sentinel `"Desconocida"`; the resolved name prefers
`mapProvinceName` and otherwise equals the raw name. -/
theorem name_resolution_fallback (feature : Feature) :
    (∀ s, getStringProperty feature "name" = some s → getRawProvinceName feature = s)
    ∧ (∀ s, getStringProperty feature "name" = none →
        getStringProperty feature "NAME" = some s → getRawProvinceName feature = s)
    ∧ (∀ s, getStringProperty feature "name" = none →
        getStringProperty feature "NAME" = none →
        getStringProperty feature "provincia" = some s →
        getRawProvinceName feature = s)
    ∧ (getStringProperty feature "name" = none →
        getStringProperty feature "NAME" = none →
        getStringProperty feature "provincia" = none →
        getRawProvinceName feature = "Desconocida")
    ∧ (∀ s, getStringProperty feature "mapProvinceName" = some s →
        getProvinceName feature = s)
    ∧ (getStringProperty feature "mapProvinceName" = none →
        getProvinceName feature = getRawProvinceName feature) := by
  refine ⟨?_, ?_, ?_, ?_, ?_, ?_⟩
  · intro s h1
    simp [getRawProvinceName, h1]
  · intro s h1 h2
    simp [getRawProvinceName, h1, h2]
  · intro s h1 h2 h3
    simp [getRawProvinceName, h1, h2, h3]
  · intro h1 h2 h3
    simp [getRawProvinceName, h1, h2, h3]
  · intro s h
    simp [getProvinceName, h]
  · intro h
    simp [getProvinceName, h]

/-- C7 witness: the property-less feature resolves to the sentinel, and its
resolved name equals the raw name. -/
theorem name_resolution_fallback_witness :
    getRawProvinceName { properties := none, geometry := .multiPolygon [] } = "Desconocida"
    ∧ getProvinceName { properties := none, geometry := .multiPolygon [] }
      = getRawProvinceName { properties := none, geometry := .multiPolygon [] } :=
  ⟨(name_resolution_fallback _).2.2.2.1 rfl rfl rfl,
   (name_resolution_fallback _).2.2.2.2.2 rfl⟩

/-- C9: `polygonCentroid` is total: an empty first ring yields the `(0, 0)`
fallback, and on a nonempty first ring the only divisions are by the ring's
nonzero length. -/
theorem polygon_centroid_total (polygon : Polygon) :
    (polygon.headD [] = [] → polygonCentroid polygon = (0, 0))
    ∧ ∀ ring, polygon.headD [] = ring → ring ≠ [] →
        (ring.length : ℚ) ≠ 0
        ∧ polygonCentroid polygon
          = ((ringSums ring).2 / ring.length, (ringSums ring).1 / ring.length) := by
  constructor
  · intro h
    simp only [polygonCentroid]
    rw [h]
    simp
  · intro ring hr hne
    have hlen : ring.length ≠ 0 := by
      simpa [List.length_eq_zero] using hne
    refine ⟨by exact_mod_cast Nat.cast_ne_zero.mpr hlen, ?_⟩
    simp only [polygonCentroid]
    rw [hr, if_neg hlen]

/-- C9 witness: the fallback at an empty polygon and, at a concrete two-vertex
ring, a nonzero divisor and the computed mean. -/
theorem polygon_centroid_total_witness :
    polygonCentroid ([] : Polygon) = (0, 0)
    ∧ polygonCentroid [[[2, 4], [4, 8]]] = (6, 3) := by
  refine ⟨(polygon_centroid_total []).1 rfl, ?_⟩
  have h := (polygon_centroid_total [[[2, 4], [4, 8]]]).2 [[2, 4], [4, 8]] rfl
    (by decide)
  rw [h.2]
  norm_num [ringSums]

/-- C3: every polygon piece is assigned to an anchor of minimal squared
distance from the unweighted mean of its first ring's vertices; the mean is
the coordinate sums over the ring length; and pieces are never assigned to
two anchors with different names. -/
theorem piece_assignment_nearest :
    (∀ (anchors : List IslandAnchor) (polygon : Polygon), anchors ≠ [] →
      ∃ a, a ∈ anchors
        ∧ pieceAnchorName anchors polygon = some a.name
        ∧ ∀ b ∈ anchors,
            anchorDistance (polygonCentroid polygon).1 (polygonCentroid polygon).2 a
              ≤ anchorDistance (polygonCentroid polygon).1 (polygonCentroid polygon).2 b)
    ∧ (∀ (polygon : Polygon) ring, polygon.headD [] = ring → ring ≠ [] →
        polygonCentroid polygon
          = ((ringSums ring).2 / ring.length, (ringSums ring).1 / ring.length))
    ∧ (∀ (anchors : List IslandAnchor) (coords : List Polygon)
        (a1 a2 : IslandAnchor) (polygon : Polygon), a1.name ≠ a2.name →
        polygon ∈ anchorPieces anchors coords a1 →
        polygon ∉ anchorPieces anchors coords a2) := by
  refine ⟨?_, ?_, ?_⟩
  · intro anchors polygon h
    obtain ⟨c, hc, hmem, hmin⟩ :=
      nearestAnchor_min (polygonCentroid polygon).1 (polygonCentroid polygon).2 anchors h
    exact ⟨c, hmem, by simp [pieceAnchorName, hc], hmin⟩
  · intro polygon ring hr hne
    exact ((polygon_centroid_total polygon).2 ring hr hne).2
  · intro anchors coords a1 a2 polygon hname h1 h2
    have e1 : pieceAnchorName anchors polygon = some a1.name :=
      of_decide_eq_true (List.mem_filter.mp h1).2
    have e2 : pieceAnchorName anchors polygon = some a2.name :=
      of_decide_eq_true (List.mem_filter.mp h2).2
    rw [e1] at e2
    exact hname (Option.some_injective _ e2)

/-- C3 witness: with the Balearic anchors and a concrete triangle piece near
Menorca, the assignment picks an anchor of minimal squared distance. -/
theorem piece_assignment_nearest_witness :
    ∃ a, a ∈ (anchorsFor "Illes Balears").getD []
      ∧ pieceAnchorName ((anchorsFor "Illes Balears").getD [])
          [[[4.1, 39.95], [4.2, 40.0], [4.0, 39.9]]] = some a.name
      ∧ ∀ b ∈ (anchorsFor "Illes Balears").getD [],
          anchorDistance
            (polygonCentroid [[[4.1, 39.95], [4.2, 40.0], [4.0, 39.9]]]).1
            (polygonCentroid [[[4.1, 39.95], [4.2, 40.0], [4.0, 39.9]]]).2 a
          ≤ anchorDistance
            (polygonCentroid [[[4.1, 39.95], [4.2, 40.0], [4.0, 39.9]]]).1
            (polygonCentroid [[[4.1, 39.95], [4.2, 40.0], [4.0, 39.9]]]).2 b :=
  piece_assignment_nearest.1 _ _ (by decide)

/-- C8: after the initial render and a `mouseover`, the per-layer styles are
exactly the pure "selected > hovered > occupied > default" resolution; in
particular the spec's `A`/`B`/`C`/`D` example resolves as stated. -/
theorem style_priority_resolution :
    (∀ (selected : Option String) (occupied : List String) (hov region : String),
      (mouseover selected occupied hov (initialState selected occupied)).styles region
        = resolveStyle region selected (some hov) (decide (region ∈ occupied)))
    ∧ ((mouseover (some "A") ["A", "C"] "B" (initialState (some "A") ["A", "C"])).styles "A"
        = SELECTED_STYLE
      ∧ (mouseover (some "A") ["A", "C"] "B" (initialState (some "A") ["A", "C"])).styles "B"
        = HOVER_STYLE
      ∧ (mouseover (some "A") ["A", "C"] "B" (initialState (some "A") ["A", "C"])).styles "C"
        = OCCUPIED_STYLE
      ∧ (mouseover (some "A") ["A", "C"] "B" (initialState (some "A") ["A", "C"])).styles "D"
        = DEFAULT_STYLE) := by
  constructor
  · intro sel occ hov region
    by_cases hsel : some hov = sel
    · by_cases hreg : some region = sel
      · rcases hreg with rfl
        simp [mouseover, initialState, resolveStyle, hsel]
      · have h1 : ¬ sel = some region := fun h => hreg h.symm
        have hhov : ¬ region = hov := fun e => hreg (e ▸ hsel)
        have h2 : ¬ some hov = some region :=
          fun e => hhov (Option.some_injective _ e).symm
        simp [mouseover, initialState, resolveStyle, hsel, hreg, h1, h2]
    · by_cases hhov : region = hov
      · subst hhov
        have h1 : ¬ sel = some region := fun h => hsel h.symm
        simp [mouseover, initialState, updateStyle, resolveStyle, hsel, h1]
      · have h2 : ¬ some hov = some region :=
          fun e => hhov (Option.some_injective _ e).symm
        have h2' : ¬ region = hov := hhov
        by_cases hreg : some region = sel
        · rcases hreg with rfl
          simp [mouseover, initialState, updateStyle, resolveStyle, hsel, h2, h2']
        · have h1 : ¬ sel = some region := fun h => hreg h.symm
          simp [mouseover, initialState, updateStyle, resolveStyle, hsel, hreg,
            h1, h2, h2']
  · exact ⟨rfl, rfl, rfl, rfl⟩

/-! ### Partitioning lemmas for the splitter -/

/-- Every entry of the anchor table is a nonempty anchor list with pairwise
distinct anchor names (this is what makes the JS `Map`-of-arrays grouping
equal to per-anchor filtering). -/
lemma table_anchor_names_nodup :
    ∀ e ∈ ISLAND_SPLIT_ANCHORS, e.2 ≠ [] ∧ (e.2.map IslandAnchor.name).Nodup := by
  decide

/-- Any anchor list returned by the table lookup is nonempty and has distinct
names. -/
lemma anchorsFor_spec {provinceName : String} {anchors : List IslandAnchor}
    (h : anchorsFor provinceName = some anchors) :
    anchors ≠ [] ∧ (anchors.map IslandAnchor.name).Nodup := by
  unfold anchorsFor at h
  obtain ⟨e, he, rfl⟩ := Option.map_eq_some'.mp h
  exact table_anchor_names_nodup e (List.mem_of_find?_eq_some he)

/-- Congruence of `flatMap` under pointwise equality on members. -/
lemma flatMap_congr_mem {α β : Type} {l : List α} {f g : α → List β}
    (h : ∀ a ∈ l, f a = g a) : l.flatMap f = l.flatMap g := by
  induction l with
  | nil => rfl
  | cons x xs ih =>
    simp only [List.flatMap_cons, h x (List.mem_cons_self _ _),
      ih fun a ha => h a (List.mem_cons_of_mem _ ha)]

/-- Concatenating, key by key, the elements assigned to each key permutes the
input list, when the keys are distinct and every element is assigned to one of
them. -/
lemma flatMap_filter_key_perm {α : Type} (k : α → Option String) :
    ∀ (ns : List String) (xs : List α), ns.Nodup →
      (∀ x ∈ xs, ∃ n ∈ ns, k x = some n) →
      (ns.flatMap fun n => xs.filter fun x => k x = some n).Perm xs := by
  intro ns
  induction ns with
  | nil =>
    intro xs _ hcov
    match xs, hcov with
    | [], _ => simp
    | y :: ys, hcov =>
      obtain ⟨n, hn, _⟩ := hcov y (List.mem_cons_self _ _)
      exact absurd hn (List.not_mem_nil n)
  | cons n ns ih =>
    intro xs hnd hcov
    have hperm0 :
        ((xs.filter fun x => decide (k x = some n))
          ++ xs.filter fun x => !decide (k x = some n)).Perm xs :=
      List.filter_append_perm _ xs
    have hgroups : ∀ m ∈ ns,
        (xs.filter fun x => decide (k x = some m))
          = (xs.filter fun x => !decide (k x = some n)).filter
              fun x => decide (k x = some m) := by
      intro m hm
      have hmn : m ≠ n := by
        intro e
        subst e
        exact (List.nodup_cons.mp hnd).1 hm
      rw [List.filter_filter]
      apply List.filter_congr
      intro x _
      by_cases h : k x = some m
      · have hn' : ¬ k x = some n := by
          rw [h]
          intro e
          exact hmn (Option.some_injective _ e)
        simp [h, hn', hmn]
      · simp [h]
    have hcov' : ∀ x ∈ (xs.filter fun x => !decide (k x = some n)),
        ∃ m ∈ ns, k x = some m := by
      intro x hx
      have hx1 : x ∈ xs := List.mem_of_mem_filter hx
      have hx2 : ¬ k x = some n := by
        have := List.of_mem_filter hx
        simpa using this
      obtain ⟨m, hm, hkm⟩ := hcov x hx1
      rcases List.mem_cons.mp hm with rfl | hm'
      · exact absurd hkm hx2
      · exact ⟨m, hm', hkm⟩
    have hmain := ih (xs.filter fun x => !decide (k x = some n))
      (List.nodup_cons.mp hnd).2 hcov'
    rw [List.flatMap_cons, flatMap_congr_mem hgroups]
    exact (List.Perm.append_left _ hmain).trans hperm0

/-- Dropping the keys whose group is empty does not change the concatenation
of the groups. -/
lemma flatMap_filter_nonempty {α β : Type} (g : α → List β) :
    ∀ l : List α,
      ((l.filter fun a => !decide ((g a).length = 0)).flatMap g) = l.flatMap g := by
  intro l
  induction l with
  | nil => rfl
  | cons x xs ih =>
    by_cases h : (g x).length = 0
    · have hx : g x = [] := List.length_eq_zero.mp h
      simp [List.filter_cons, h, hx, ih]
    · simp [List.filter_cons, h, ih]

/-- A `filterMap` that either skips or maps is a `filter` followed by a
`map`. -/
lemma filterMap_if_skip {α β : Type} (p : α → Prop) [DecidablePred p] (f : α → β) :
    ∀ l : List α,
      l.filterMap (fun a => if p a then none else some (f a))
        = (l.filter fun a => !decide (p a)).map f := by
  intro l
  induction l with
  | nil => rfl
  | cons x xs ih =>
    by_cases h : p x
    · simp [List.filterMap_cons, List.filter_cons, h, ih]
    · simp [List.filterMap_cons, List.filter_cons, h, ih]

/-- `splitIslandFeature` in the archipelago multi-polygon case: the occupied
anchors' regions, or the original feature if there are none. -/
lemma splitIslandFeature_eq_branch (feature : Feature)
    (anchors : List IslandAnchor) (coords : List Polygon)
    (ha : anchorsFor (getRawProvinceName feature) = some anchors)
    (hg : feature.geometry = .multiPolygon coords) :
    splitIslandFeature feature
      = if occupiedAnchors anchors coords = [] then [feature]
        else (occupiedAnchors anchors coords).map fun anchor =>
          splitFeatureFor feature (getRawProvinceName feature) anchor
            (anchorPieces anchors coords anchor) := by
  simp only [splitIslandFeature, ha, hg]
  rw [filterMap_if_skip (fun anchor => (anchorPieces anchors coords anchor).length = 0)
    (fun anchor => splitFeatureFor feature (getRawProvinceName feature) anchor
      (anchorPieces anchors coords anchor)) anchors]
  by_cases h : occupiedAnchors anchors coords = []
  · rw [if_pos h]
    have h' : (anchors.filter fun a => !decide ((anchorPieces anchors coords a).length = 0)) = [] := h
    rw [h']
    simp
  · rw [if_neg h]
    have h' : (anchors.filter fun a => !decide ((anchorPieces anchors coords a).length = 0)) ≠ [] := h
    have hlen : 0 < ((anchors.filter fun a => !decide ((anchorPieces anchors coords a).length = 0)).map fun anchor =>
        splitFeatureFor feature (getRawProvinceName feature) anchor
          (anchorPieces anchors coords anchor)).length := by
      rw [List.length_map]
      exact List.length_pos.mpr h'
    rw [if_pos hlen]
    rfl

/-- The resolved name of an emitted sub-region is the original province
name. -/
lemma getProvinceName_split (feature : Feature) (provinceName : String)
    (anchor : IslandAnchor) (coordinates : List Polygon) :
    getProvinceName (splitFeatureFor feature provinceName anchor coordinates)
      = provinceName := by
  have hne : ("mapProvinceName" : String) ≠ "mapDisplayName" := by decide
  simp [getProvinceName, getStringProperty, splitFeatureFor,
    getProp_setProp_other _ _ _ _ hne, getProp_setProp_self]

/-- The display label of an emitted sub-region is the anchor's name. -/
lemma getFeatureLabel_split (feature : Feature) (provinceName : String)
    (anchor : IslandAnchor) (coordinates : List Polygon) :
    getFeatureLabel (splitFeatureFor feature provinceName anchor coordinates)
      = anchor.name := by
  simp [getFeatureLabel, getStringProperty, splitFeatureFor, getProp_setProp_self]

/-- `splitIslandFeature` either passes the feature through unchanged or maps
over the occupied anchors of an archipelago multi-polygon. -/
lemma splitIslandFeature_cases (feature : Feature) :
    splitIslandFeature feature = [feature]
    ∨ ∃ anchors coords, anchorsFor (getRawProvinceName feature) = some anchors
        ∧ feature.geometry = .multiPolygon coords
        ∧ occupiedAnchors anchors coords ≠ []
        ∧ splitIslandFeature feature
          = (occupiedAnchors anchors coords).map fun anchor =>
              splitFeatureFor feature (getRawProvinceName feature) anchor
                (anchorPieces anchors coords anchor) := by
  obtain ⟨props, geom⟩ := feature
  cases geom with
  | polygon coords =>
    left
    cases hA : anchorsFor (getRawProvinceName ⟨props, Geometry.polygon coords⟩) with
    | none => simp only [splitIslandFeature, hA]
    | some anchors => simp only [splitIslandFeature, hA]
  | multiPolygon coords =>
    cases hA : anchorsFor (getRawProvinceName ⟨props, Geometry.multiPolygon coords⟩) with
    | none => exact Or.inl (by simp only [splitIslandFeature, hA])
    | some anchors =>
      have heq := splitIslandFeature_eq_branch _ anchors coords hA rfl
      by_cases hocc : occupiedAnchors anchors coords = []
      · rw [if_pos hocc] at heq
        exact Or.inl heq
      · rw [if_neg hocc] at heq
        exact Or.inr ⟨anchors, coords, rfl, rfl, hocc, heq⟩

/-- Sum of a `flatMap` is the sum of the per-element sums. -/
lemma sum_flatMap_nat {α : Type} (f : α → List ℕ) :
    ∀ l : List α, (l.flatMap f).sum = (l.map fun a => (f a).sum).sum := by
  intro l
  induction l with
  | nil => rfl
  | cons x xs ih => simp [List.flatMap_cons, List.sum_append, ih]

/-! ### Claim theorems: the splitter -/

/-- C6: `splitIslandFeature` never returns an empty list; in the degenerate
archipelago case where no anchor received a piece it returns the original
feature unchanged as a singleton. -/
theorem split_never_empty (feature : Feature) :
    splitIslandFeature feature ≠ []
    ∧ ∀ anchors coords,
        anchorsFor (getRawProvinceName feature) = some anchors →
        feature.geometry = .multiPolygon coords →
        occupiedAnchors anchors coords = [] →
        splitIslandFeature feature = [feature] := by
  constructor
  · rcases splitIslandFeature_cases feature with heq | ⟨anchors, coords, _, _, hocc, heq⟩
    · rw [heq]
      exact List.cons_ne_nil _ _
    · rw [heq]
      simpa using hocc
  · intro anchors coords ha hg hocc
    rw [splitIslandFeature_eq_branch feature anchors coords ha hg, if_pos hocc]

/-- C6 witness: the Balearic feature with an empty multi-polygon splits to
itself. -/
theorem split_never_empty_witness :
    splitIslandFeature emptyArchipelago = [emptyArchipelago] :=
  (split_never_empty emptyArchipelago).2 balAnchors [] rfl rfl
    (by simp [occupiedAnchors, anchorPieces])

/-- C1: splitting loses no geometry: the polygon pieces of the output regions
are a permutation of the input's pieces (each piece lands in exactly one
output region), and the total vertex count over a collection never
decreases. -/
theorem split_preserves_geometry :
    (∀ feature : Feature,
      ((splitIslandFeature feature).flatMap featurePolygons).Perm
        (featurePolygons feature))
    ∧ ∀ data : FeatureCollection,
        collectionVertexCount (splitArchipelagos data) ≥ collectionVertexCount data := by
  have hsplit : ∀ feature : Feature,
      ((splitIslandFeature feature).flatMap featurePolygons).Perm
        (featurePolygons feature) := by
    intro feature
    rcases splitIslandFeature_cases feature with heq |
      ⟨anchors, coords, ha, hg, _, heq⟩
    · rw [heq]
      simp only [List.flatMap_cons, List.flatMap_nil, List.append_nil]
      exact List.Perm.refl _
    · rw [heq]
      have hfp : featurePolygons feature = coords := by
        simp only [featurePolygons, hg]
      rw [hfp, List.flatMap_map]
      obtain ⟨hne, hnd⟩ := anchorsFor_spec ha
      have hcov : ∀ polygon ∈ coords, ∃ n ∈ anchors.map IslandAnchor.name,
          pieceAnchorName anchors polygon = some n := by
        intro poly _
        obtain ⟨c, hc, hmem, _⟩ := nearestAnchor_min (polygonCentroid poly).1
          (polygonCentroid poly).2 anchors hne
        exact ⟨c.name, List.mem_map_of_mem _ hmem, by simp [pieceAnchorName, hc]⟩
      have hperm := flatMap_filter_key_perm (pieceAnchorName anchors)
        (anchors.map IslandAnchor.name) coords hnd hcov
      rw [List.flatMap_map] at hperm
      have hrw : ((occupiedAnchors anchors coords).flatMap
            fun a => anchorPieces anchors coords a)
          = anchors.flatMap fun a => anchorPieces anchors coords a :=
        flatMap_filter_nonempty (anchorPieces anchors coords) anchors
      exact hrw ▸ hperm
  refine ⟨hsplit, ?_⟩
  intro data
  have hfeat : ∀ f, ((splitIslandFeature f).map featureVertexCount).sum
      = featureVertexCount f := by
    intro f
    have h1 : ((splitIslandFeature f).flatMap featurePolygons).map polygonVertexCount
        = (splitIslandFeature f).flatMap fun g =>
            (featurePolygons g).map polygonVertexCount :=
      List.map_flatMap _ _ _
    have h2 := sum_flatMap_nat (fun g => (featurePolygons g).map polygonVertexCount)
      (splitIslandFeature f)
    have h3 := ((hsplit f).map polygonVertexCount).sum_eq
    calc ((splitIslandFeature f).map featureVertexCount).sum
        = ((splitIslandFeature f).map fun g =>
            ((featurePolygons g).map polygonVertexCount).sum).sum := rfl
      _ = (((splitIslandFeature f).flatMap fun g =>
            (featurePolygons g).map polygonVertexCount).sum) := (sum_flatMap_nat _ _).symm
      _ = (((splitIslandFeature f).flatMap featurePolygons).map polygonVertexCount).sum := by
          rw [h1]
      _ = ((featurePolygons f).map polygonVertexCount).sum := h3
      _ = featureVertexCount f := rfl
  have : collectionVertexCount (splitArchipelagos data) = collectionVertexCount data := by
    unfold collectionVertexCount splitArchipelagos
    have h4 : ((data.features.flatMap splitIslandFeature).map featureVertexCount).sum
        = (data.features.flatMap fun f =>
            (splitIslandFeature f).map featureVertexCount).sum := by
      rw [List.map_flatMap]
    rw [h4, sum_flatMap_nat]
    congr 1
    exact List.map_congr_left fun f _ => hfeat f
  exact ge_of_eq this

/-- C2: in the archipelago multi-polygon case with at least one occupied
anchor, `splitIslandFeature` emits, in anchor order, exactly one region per
occupied anchor; each region's resolved name is the original province name,
its display label is the anchor's name, and its geometry is the multi-polygon
of precisely that anchor's assigned pieces. -/
theorem split_archipelago_regions (feature : Feature)
    (anchors : List IslandAnchor) (coords : List Polygon)
    (ha : anchorsFor (getRawProvinceName feature) = some anchors)
    (hg : feature.geometry = .multiPolygon coords)
    (hocc : occupiedAnchors anchors coords ≠ []) :
    splitIslandFeature feature
      = (occupiedAnchors anchors coords).map (fun anchor =>
          splitFeatureFor feature (getRawProvinceName feature) anchor
            (anchorPieces anchors coords anchor))
    ∧ (splitIslandFeature feature).length = (occupiedAnchors anchors coords).length
    ∧ ∀ anchor ∈ occupiedAnchors anchors coords,
        getProvinceName (splitFeatureFor feature (getRawProvinceName feature)
            anchor (anchorPieces anchors coords anchor))
          = getRawProvinceName feature
        ∧ getFeatureLabel (splitFeatureFor feature (getRawProvinceName feature)
            anchor (anchorPieces anchors coords anchor)) = anchor.name
        ∧ (splitFeatureFor feature (getRawProvinceName feature) anchor
            (anchorPieces anchors coords anchor)).geometry
          = .multiPolygon (anchorPieces anchors coords anchor) := by
  have heq := splitIslandFeature_eq_branch feature anchors coords ha hg
  rw [if_neg hocc] at heq
  refine ⟨heq, ?_, ?_⟩
  · rw [heq, List.length_map]
  · intro anchor _
    exact ⟨getProvinceName_split feature _ anchor _,
      getFeatureLabel_split feature _ anchor _, rfl⟩

/-- C2 witness: the concrete Balearic feature with one piece on each of the 4
anchors splits into exactly 4 sub-regions, labelled by the anchor names and
all resolving to the original province name. -/
theorem split_archipelago_regions_witness :
    occupiedAnchors balAnchors balCoords ≠ []
    ∧ (splitIslandFeature balFeature).length = 4
    ∧ (splitIslandFeature balFeature).map getFeatureLabel
      = ["Mallorca", "Menorca", "Ibiza", "Formentera"]
    ∧ (splitIslandFeature balFeature).map getProvinceName
      = ["Illes Balears", "Illes Balears", "Illes Balears", "Illes Balears"] := by
  have h1 : pieceAnchorName [ ⟨"Mallorca", 39.6, 2.9⟩, ⟨"Menorca", 39.95, 4.1⟩, ⟨"Ibiza", 38.98, 1.43⟩, ⟨"Formentera", 38.7, 1.45⟩ ] [[[2.9, 39.6]]] = some "Mallorca" := by
    norm_num [pieceAnchorName, polygonCentroid, ringSums, nearestAnchor, balAnchors,
      nearestStep, anchorDistance]
  have h2 : pieceAnchorName [ ⟨"Mallorca", 39.6, 2.9⟩, ⟨"Menorca", 39.95, 4.1⟩, ⟨"Ibiza", 38.98, 1.43⟩, ⟨"Formentera", 38.7, 1.45⟩ ] [[[4.1, 39.95]]] = some "Menorca" := by
    norm_num [pieceAnchorName, polygonCentroid, ringSums, nearestAnchor, balAnchors,
      nearestStep, anchorDistance]
  have h3 : pieceAnchorName [ ⟨"Mallorca", 39.6, 2.9⟩, ⟨"Menorca", 39.95, 4.1⟩, ⟨"Ibiza", 38.98, 1.43⟩, ⟨"Formentera", 38.7, 1.45⟩ ] [[[1.43, 38.98]]] = some "Ibiza" := by
    norm_num [pieceAnchorName, polygonCentroid, ringSums, nearestAnchor, balAnchors,
      nearestStep, anchorDistance]
  have h4 : pieceAnchorName [ ⟨"Mallorca", 39.6, 2.9⟩, ⟨"Menorca", 39.95, 4.1⟩, ⟨"Ibiza", 38.98, 1.43⟩, ⟨"Formentera", 38.7, 1.45⟩ ] [[[1.45, 38.7]]] = some "Formentera" := by
    norm_num [pieceAnchorName, polygonCentroid, ringSums, nearestAnchor, balAnchors,
      nearestStep, anchorDistance]
  have hocc_eq : occupiedAnchors balAnchors balCoords = balAnchors := by
    simp [occupiedAnchors, anchorPieces, balCoords, balAnchors, h1, h2, h3, h4]
  have hocc : occupiedAnchors balAnchors balCoords ≠ [] := by
    rw [hocc_eq]
    simp [balAnchors]
  have hraw : getRawProvinceName balFeature = "Illes Balears" := rfl
  have H := split_archipelago_regions balFeature balAnchors balCoords rfl rfl hocc
  refine ⟨hocc, ?_, ?_, ?_⟩
  · rw [H.2.1, hocc_eq]
    rfl
  · rw [H.1, hocc_eq, List.map_map]
    simp [Function.comp, getFeatureLabel_split, balAnchors]
  · rw [H.1, hocc_eq, List.map_map]
    simp [Function.comp, getProvinceName_split, hraw, balAnchors]

/-! ### The centroid-map deduplication -/

lemma mapGet_mapSet_self {α : Type} (m : List (String × α)) (k : String) (v : α) :
    mapGet (mapSet m k v) k = some v := by
  induction m with
  | nil => simp [mapSet, mapGet, List.find?]
  | cons e rest ih =>
    obtain ⟨k', v'⟩ := e
    by_cases h : k' = k
    · simp [mapSet, h, mapGet, List.find?]
    · simp only [mapSet, if_neg h]
      simp only [mapGet, List.find?] at ih ⊢
      rw [show (decide (k' = k)) = false from decide_eq_false h]
      exact ih

lemma mapGet_mapSet_other {α : Type} (m : List (String × α)) (k k' : String)
    (v : α) (h : k' ≠ k) : mapGet (mapSet m k v) k' = mapGet m k' := by
  have h2 : ¬ (k = k') := fun e => h e.symm
  induction m with
  | nil => simp [mapSet, mapGet, List.find?, h2]
  | cons e rest ih =>
    obtain ⟨k0, v0⟩ := e
    by_cases h0 : k0 = k
    · subst h0
      simp [mapSet, mapGet, List.find?, h2]
    · simp only [mapSet, if_neg h0]
      simp only [mapGet, List.find?] at ih ⊢
      cases hk0 : decide (k0 = k') with
      | true => simp
      | false =>
        simp only [hk0]
        exact ih

lemma mapGet_map_value {α β : Type} (g : α → β) (m : List (String × α))
    (k : String) :
    mapGet (m.map fun e => (e.1, g e.2)) k = (mapGet m k).map g := by
  induction m with
  | nil => simp [mapGet]
  | cons e rest ih =>
    obtain ⟨k0, v0⟩ := e
    by_cases h : k0 = k
    · simp [mapGet, List.find?, h]
    · simp only [mapGet, List.find?, List.map_cons] at ih ⊢
      rw [show (decide (k0 = k)) = false from decide_eq_false h]
      exact ih

/-- The entry kept for `name` by the `provinceCentroids` loop is the
spec's strictly-greater fold over the measurements of the features that
resolve to `name`, continued from whatever the accumulator already held. -/
lemma buildCentroidMap_lookup :
    ∀ (features : List Feature) (acc m : List (String × ((ℚ × ℚ) × ℚ)))
      (name : String),
      buildCentroidMap features acc = some m →
      mapGet m name
        = keepFold (mapGet acc name)
            ((features.filter fun f => getProvinceName f = name).filterMap
              featureMeasure) := by
  intro features
  induction features with
  | nil =>
    intro acc m name h
    simp only [buildCentroidMap, Option.some_inj] at h
    subst h
    rfl
  | cons f rest ih =>
    intro acc m name h
    simp only [buildCentroidMap] at h
    cases hm : featureMeasure f with
    | none =>
      simp only [hm] at h
      exact absurd h (by simp)
    | some cs =>
      obtain ⟨center, score⟩ := cs
      simp only [hm] at h
      by_cases hname : getProvinceName f = name
      · rw [hname] at h
        have hfilter : ((f :: rest).filter fun g => getProvinceName g = name)
            = f :: (rest.filter fun g => getProvinceName g = name) := by
          simp [List.filter_cons, hname]
        rw [hfilter]
        simp only [List.filterMap_cons, hm]
        cases hacc : mapGet acc name with
        | none =>
          simp only [hacc] at h
          rw [ih _ m name h, mapGet_mapSet_self]
          rfl
        | some cur =>
          simp only [hacc] at h
          by_cases hgt : score > cur.2
          · rw [if_pos hgt] at h
            rw [ih _ m name h, mapGet_mapSet_self]
            simp [keepFold, keepStep, hgt]
          · rw [if_neg hgt] at h
            rw [ih _ m name h]
            simp [keepFold, keepStep, hgt, hacc]
      · have hfilter : ((f :: rest).filter fun g => getProvinceName g = name)
            = rest.filter fun g => getProvinceName g = name := by
          simp [List.filter_cons, hname]
        rw [hfilter]
        cases hacc : mapGet acc (getProvinceName f) with
        | none =>
          simp only [hacc] at h
          rw [ih _ m name h, mapGet_mapSet_other _ _ _ _ (fun e => hname e.symm)]
        | some cur =>
          simp only [hacc] at h
          by_cases hgt : score > cur.2
          · rw [if_pos hgt] at h
            rw [ih _ m name h, mapGet_mapSet_other _ _ _ _ (fun e => hname e.symm)]
          · rw [if_neg hgt] at h
            exact ih _ m name h

/-- C4: in the deduplicated name → centroid map, the entry for every name is
the spec's rule — keep the strictly greater score, ties keep the first
seen — applied to the measurements of the features resolving to that name. -/
theorem centroid_map_dedup (features : List Feature)
    (cm : List (String × (ℚ × ℚ))) (name : String)
    (h : provinceCentroids features = some cm) :
    mapGet cm name
      = (keepGreater ((features.filter fun f => getProvinceName f = name).filterMap
          featureMeasure)).map (fun e => e.1) := by
  unfold provinceCentroids at h
  obtain ⟨m, hm, rfl⟩ := Option.map_eq_some'.mp h
  rw [mapGet_map_value, buildCentroidMap_lookup features [] m name hm]
  rfl

/-- The measurement of the score-10 fixture. -/
lemma dupFeatureSmall_measure :
    featureMeasure dupFeatureSmall = some (((5/2 : ℚ), (1 : ℚ)), (10 : ℚ)) := by
  norm_num [featureMeasure, featureCentroid, featureAreaScore, featureBounds,
    featureLatLngs, collectLatLngs, coordToLatLng, extendBounds, dupFeatureSmall,
    min_def, max_def]

/-- The measurement of the score-20 fixture. -/
lemma dupFeatureLarge_measure :
    featureMeasure dupFeatureLarge = some (((5/2 : ℚ), (2 : ℚ)), (20 : ℚ)) := by
  norm_num [featureMeasure, featureCentroid, featureAreaScore, featureBounds,
    featureLatLngs, collectLatLngs, coordToLatLng, extendBounds, dupFeatureLarge,
    min_def, max_def]

/-- Evaluating `provinceCentroids` on the two duplicate `X` fixtures. -/
lemma provinceCentroids_dup_eval :
    provinceCentroids [dupFeatureSmall, dupFeatureLarge]
      = some [("X", ((5/2 : ℚ), (2 : ℚ)))] := by
  have hname1 : getProvinceName dupFeatureSmall = "X" := rfl
  have hname2 : getProvinceName dupFeatureLarge = "X" := rfl
  norm_num [provinceCentroids, buildCentroidMap, dupFeatureSmall_measure,
    dupFeatureLarge_measure, hname1, hname2, mapGet, mapSet, List.find?]

/-- C4 witness: two regions named `X` with scores 10 and 20 — the resulting
center for `X` is the bounding-box center of the score-20 region. -/
theorem centroid_map_dedup_witness :
    ∃ cm, provinceCentroids [dupFeatureSmall, dupFeatureLarge] = some cm
      ∧ mapGet cm "X" = some (5/2, 2) := by
  have hname1 : getProvinceName dupFeatureSmall = "X" := rfl
  have hname2 : getProvinceName dupFeatureLarge = "X" := rfl
  refine ⟨_, provinceCentroids_dup_eval, ?_⟩
  rw [centroid_map_dedup _ _ _ provinceCentroids_dup_eval]
  norm_num [keepGreater, keepFold, keepStep, dupFeatureSmall_measure,
    dupFeatureLarge_measure, hname1, hname2,
    List.filter_cons, List.filterMap_cons, mapGet, List.find?]

/-! ### Marker layout -/

/-- C5: marker layout: one occupant sits on the centroid; with `n > 1` the
`i`-th marker sits at angle `2π·i/n` on the circle of radius
`min(0.15 + n·0.02, 0.5)`; in particular `layout((0,0), 4)` is four distinct
points at radius `0.23` spaced by a quarter turn. -/
theorem marker_layout_spec :
    (∀ center : ℚ × ℚ, layout center 1 = [((center.1 : ℝ), (center.2 : ℝ))])
    ∧ (∀ (center : ℚ × ℚ) (n i : ℕ), 1 < n → i < n →
        (layout center n)[i]?
          = some ((center.1 : ℝ) + Real.cos (2 * Real.pi * i / n)
                * min (0.15 + (n : ℝ) * 0.02) 0.5,
              (center.2 : ℝ) + Real.sin (2 * Real.pi * i / n)
                * min (0.15 + (n : ℝ) * 0.02) 0.5))
    ∧ layout (0, 0) 4 = [((0.23 : ℝ), 0), (0, 0.23), (-0.23, 0), (0, -0.23)]
    ∧ (layout (0, 0) 4).Pairwise (· ≠ ·)
    ∧ ∀ p ∈ layout (0, 0) 4, p.1 ^ 2 + p.2 ^ 2 = (0.23 : ℝ) ^ 2 := by
  have h4 : layout (0, 0) 4
      = [((0.23 : ℝ), 0), (0, 0.23), (-0.23, 0), (0, -0.23)] := by
    have ha0 : (2 * Real.pi * ((0 : ℕ) : ℝ) / ((4 : ℕ) : ℝ)) = 0 := by
      push_cast
      ring
    have hb1 : (2 * Real.pi / 4 : ℝ) = Real.pi / 2 := by ring
    have hb2 : (2 * Real.pi * 2 / 4 : ℝ) = Real.pi := by ring
    have hb3 : (2 * Real.pi * 3 / 4 : ℝ) = Real.pi + Real.pi / 2 := by ring
    simp only [layout, List.range_succ, List.range_zero, List.nil_append,
      List.cons_append, List.map_cons, List.map_nil, markerPosition]
    norm_num [ha0, hb1, hb2, hb3, Real.cos_pi_div_two, Real.sin_pi_div_two,
      Real.cos_pi, Real.sin_pi, Real.cos_add, Real.sin_add, min_def]
  refine ⟨?_, ?_, h4, ?_, ?_⟩
  · intro center
    simp [layout, markerPosition]
  · intro center n i hn hi
    have hget : (List.range n)[i]? = some i := List.getElem?_range hi
    simp only [layout, List.getElem?_map, hget, Option.map_some]
    simp [markerPosition, Nat.lt_of_lt_of_le Nat.one_pos (Nat.le_of_lt hn), hn]
  · rw [h4]
    norm_num [List.pairwise_cons, Prod.ext_iff]
    constructor
    · rintro a b (⟨rfl, rfl⟩ | ⟨rfl, rfl⟩ | ⟨rfl, rfl⟩) ha
      · norm_num at ha
      · norm_num at ha
      · norm_num at ha
    · rintro a b (⟨rfl, rfl⟩ | ⟨rfl, rfl⟩) ha
      · norm_num at ha
      · norm_num
  · rw [h4]
    intro p hp
    rcases List.mem_cons.mp hp with rfl | hp
    · norm_num
    rcases List.mem_cons.mp hp with rfl | hp
    · norm_num
    rcases List.mem_cons.mp hp with rfl | hp
    · norm_num
    rcases List.mem_cons.mp hp with rfl | hp
    · norm_num
    exact absurd hp (List.not_mem_nil p)

/-- C5 witness: the layout formula at `center = (0,0)`, `n = 2`, `i = 1`. -/
theorem marker_layout_spec_witness :
    (1 : ℕ) < 2
    ∧ (layout (0, 0) 2)[(1 : ℕ)]?
      = some ((((0, 0) : ℚ × ℚ).1 : ℝ)
            + Real.cos (2 * Real.pi * ((1 : ℕ) : ℝ) / ((2 : ℕ) : ℝ))
              * min (0.15 + ((2 : ℕ) : ℝ) * 0.02) 0.5,
          (((0, 0) : ℚ × ℚ).2 : ℝ)
            + Real.sin (2 * Real.pi * ((1 : ℕ) : ℝ) / ((2 : ℕ) : ℝ))
              * min (0.15 + ((2 : ℕ) : ℝ) * 0.02) 0.5) :=
  ⟨by norm_num, marker_layout_spec.2.1 (0, 0) 2 1 (by norm_num) (by norm_num)⟩

/-! ### Avatar markers and profile grouping -/

lemma enumFrom_map_snd {α : Type} :
    ∀ (i : ℕ) (l : List α), ((List.enumFrom i l).map fun ip => ip.2) = l
  | _, [] => rfl
  | i, x :: xs => by simp [List.enumFrom, enumFrom_map_snd (i + 1) xs]

lemma enum_map_snd {α : Type} (l : List α) :
    (l.enum.map fun ip => ip.2) = l :=
  enumFrom_map_snd 0 l

lemma mem_fst_mapSet {α : Type} :
    ∀ (m : List (String × α)) (k x : String) (v : α),
      x ∈ (mapSet m k v).map Prod.fst ↔ x ∈ m.map Prod.fst ∨ x = k := by
  intro m
  induction m with
  | nil =>
    intro k x v
    simp [mapSet]
  | cons e rest ih =>
    intro k x v
    obtain ⟨k0, v0⟩ := e
    by_cases h0 : k0 = k
    · subst h0
      simp [mapSet]
      tauto
    · simp [mapSet, h0, ih]
      tauto

lemma nodup_fst_mapSet {α : Type} :
    ∀ (m : List (String × α)) (k : String) (v : α),
      (m.map Prod.fst).Nodup → ((mapSet m k v).map Prod.fst).Nodup := by
  intro m
  induction m with
  | nil =>
    intro k v _
    simp [mapSet]
  | cons e rest ih =>
    intro k v h
    obtain ⟨k0, v0⟩ := e
    by_cases h0 : k0 = k
    · subst h0
      simpa [mapSet] using h
    · simp only [List.map_cons, List.nodup_cons] at h
      simp only [mapSet, if_neg h0, List.map_cons, List.nodup_cons]
      refine ⟨?_, ih k v h.2⟩
      rw [mem_fst_mapSet]
      push_neg
      exact ⟨h.1, h0⟩

lemma mem_fst_of_mapGet {α : Type} (m : List (String × α)) (k : String) (v : α)
    (h : mapGet m k = some v) : k ∈ m.map Prod.fst := by
  unfold mapGet at h
  obtain ⟨e, he, _⟩ := Option.map_eq_some'.mp h
  have hk : e.1 = k := by
    have := List.find?_some he
    simpa using this
  exact List.mem_map.mpr ⟨e, List.mem_of_find?_eq_some he, hk⟩

lemma mapGet_of_mem_nodup {α : Type} :
    ∀ (m : List (String × α)) (k : String) (v : α),
      (m.map Prod.fst).Nodup → (k, v) ∈ m → mapGet m k = some v := by
  intro m
  induction m with
  | nil =>
    intro k v _ hmem
    cases hmem
  | cons e rest ih =>
    intro k v hnd hmem
    obtain ⟨k0, v0⟩ := e
    rcases List.mem_cons.mp hmem with heq | hmem'
    · cases heq
      simp [mapGet, List.find?]
    · have hk0 : k0 ≠ k := by
        intro h0
        subst h0
        have hmm : k0 ∈ rest.map Prod.fst :=
          List.mem_map.mpr ⟨(k0, v), hmem', rfl⟩
        simp only [List.map_cons, List.nodup_cons] at hnd
        exact hnd.1 hmm
      simp only [mapGet, List.find?]
      rw [show decide (k0 = k) = false from decide_eq_false hk0]
      have hnd' : (rest.map Prod.fst).Nodup := by
        simp only [List.map_cons, List.nodup_cons] at hnd
        exact hnd.2
      exact ih k v hnd' hmem'

/-- The group built by the `profilesByProvince` loop for each name, continued
from an accumulator described by `g0`. -/
lemma foldl_groupStep_lookup :
    ∀ (profiles : List Profile) (acc : List (String × List Profile))
      (g0 : String → List Profile),
      (∀ n, mapGet acc n = if g0 n = [] then none else some (g0 n)) →
      ∀ n, mapGet (profiles.foldl groupStep acc) n
        = if g0 n ++ profiles.filter (fun p => profileProvinceName p = some n) = []
          then none
          else some (g0 n ++ profiles.filter fun p => profileProvinceName p = some n) := by
  intro profiles
  induction profiles with
  | nil =>
    intro acc g0 hinv n
    simpa using hinv n
  | cons p rest ih =>
    intro acc g0 hinv n
    rw [List.foldl_cons]
    cases hp : profileProvinceName p with
    | none =>
      have hstep : groupStep acc p = acc := by simp [groupStep, hp]
      have hfilter : (p :: rest).filter (fun q => profileProvinceName q = some n)
          = rest.filter fun q => profileProvinceName q = some n := by
        simp [List.filter_cons, hp]
      rw [hstep, hfilter]
      exact ih acc g0 hinv n
    | some name =>
      have hstep : groupStep acc p
          = mapSet acc name ((mapGet acc name).getD [] ++ [p]) := by
        simp [groupStep, hp]
      have hgetD : (mapGet acc name).getD [] = g0 name := by
        rw [hinv name]
        by_cases hz : g0 name = [] <;> simp [hz]
      have hinv' : ∀ m, mapGet (groupStep acc p) m
          = if (if m = name then g0 name ++ [p] else g0 m) = []
            then none
            else some (if m = name then g0 name ++ [p] else g0 m) := by
        intro m
        by_cases hm : m = name
        · subst hm
          rw [hstep, mapGet_mapSet_self, hgetD]
          simp
        · rw [hstep, mapGet_mapSet_other _ _ _ _ hm, hinv m]
          simp [hm]
      have key := ih (groupStep acc p)
        (fun m => if m = name then g0 name ++ [p] else g0 m) hinv' n
      by_cases hn : n = name
      · subst hn
        have hfilter : (p :: rest).filter (fun q => profileProvinceName q = some n)
            = p :: (rest.filter fun q => profileProvinceName q = some n) := by
          simp [List.filter_cons, hp]
        rw [hfilter]
        simpa [List.append_assoc] using key
      · have hne : ¬ (profileProvinceName p = some n) := by
          rw [hp]
          intro e
          exact hn (Option.some_injective _ e).symm
        have hfilter : (p :: rest).filter (fun q => profileProvinceName q = some n)
            = rest.filter fun q => profileProvinceName q = some n := by
          simp [List.filter_cons, hne]
        rw [hfilter]
        simpa [hn] using key

/-- The `profilesByProvince` entry for a name is exactly the (nonempty) list
of profiles carrying that name, in input order. -/
lemma profilesByProvince_lookup (profiles : List Profile) (n : String) :
    mapGet (profilesByProvince profiles) n
      = if profiles.filter (fun p => profileProvinceName p = some n) = []
        then none
        else some (profiles.filter fun p => profileProvinceName p = some n) := by
  have h := foldl_groupStep_lookup profiles [] (fun _ => []) (fun _ => rfl) n
  simpa using h

/-- The grouping map has pairwise-distinct keys. -/
lemma nodup_fst_profilesByProvince (profiles : List Profile) :
    ((profilesByProvince profiles).map Prod.fst).Nodup := by
  suffices h : ∀ (ps : List Profile) (acc : List (String × List Profile)),
      (acc.map Prod.fst).Nodup → ((ps.foldl groupStep acc).map Prod.fst).Nodup by
    exact h profiles [] (by simp)
  intro ps
  induction ps with
  | nil =>
    intro acc h
    exact h
  | cons p rest ih =>
    intro acc h
    rw [List.foldl_cons]
    apply ih
    cases hp : profileProvinceName p with
    | none => simpa [groupStep, hp] using h
    | some name =>
      simp only [groupStep, hp]
      exact nodup_fst_mapSet _ _ _ h

/-- A `flatMap` under a boolean guard is a `flatMap` over the filtered
list. -/
lemma flatMap_guard {α β : Type} (p : α → Bool) (g : α → List β) :
    ∀ l : List α,
      (l.flatMap fun a => if p a then g a else []) = (l.filter p).flatMap g := by
  intro l
  induction l with
  | nil => rfl
  | cons x xs ih =>
    cases h : p x <;> simp [List.filter_cons, h, ih]

/-- C10: the avatar markers carry exactly the profiles whose province name is
present (nonempty) and has an entry in the centroid map derived from the
region collection — one marker per such profile, none for the others. -/
theorem markers_match_profiles (features : List Feature)
    (cmap : List (String × (ℚ × ℚ))) (profiles : List Profile)
    (h : provinceCentroids features = some cmap) :
    ((avatarMarkers profiles cmap).map Marker.profile).Perm
      (profiles.filter (hasMarker cmap)) := by
  have h1 : (avatarMarkers profiles cmap).map Marker.profile
      = (profilesByProvince profiles).flatMap fun g =>
          if (mapGet cmap g.1).isSome then g.2 else [] := by
    simp only [avatarMarkers]
    rw [List.map_flatMap]
    apply flatMap_congr_mem
    intro g _
    cases hc : mapGet cmap g.1 with
    | none => simp [hc]
    | some center =>
      simp only [hc]
      rw [List.map_map]
      have hcomp : (Marker.profile ∘ fun ip : ℕ × Profile =>
          ({ key := ip.2.id, position := markerPosition center g.2.length ip.1,
             profile := ip.2 } : Marker)) = fun ip => ip.2 := rfl
      rw [hcomp]
      exact enum_map_snd g.2
  have h2 : ∀ e ∈ profilesByProvince profiles,
      (if (mapGet cmap e.1).isSome then e.2 else [])
        = if (mapGet cmap e.1).isSome
          then profiles.filter fun p => profileProvinceName p = some e.1
          else [] := by
    intro e he
    have hmem : (e.1, e.2) ∈ profilesByProvince profiles := by
      rw [Prod.mk.eta]
      exact he
    have hget := mapGet_of_mem_nodup _ e.1 e.2
      (nodup_fst_profilesByProvince profiles) hmem
    rw [profilesByProvince_lookup] at hget
    by_cases hz : profiles.filter (fun p => profileProvinceName p = some e.1) = []
    · rw [if_pos hz] at hget
      cases hget
    · rw [if_neg hz] at hget
      rw [(Option.some_inj.mp hget).symm]
  have h5 : ∀ n ∈ ((profilesByProvince profiles).map Prod.fst).filter
        (fun n => (mapGet cmap n).isSome),
      (profiles.filter fun p => profileProvinceName p = some n)
        = (profiles.filter (hasMarker cmap)).filter
            fun p => profileProvinceName p = some n := by
    intro n hn
    have hs : (mapGet cmap n).isSome := by
      simpa using (List.mem_filter.mp hn).2
    rw [List.filter_filter]
    apply List.filter_congr
    intro p _
    by_cases hpn : profileProvinceName p = some n
    · have hmark : hasMarker cmap p = true := by
        simp [hasMarker, hpn, hs]
      simp [hpn, hmark]
    · simp [hpn]
  rw [h1, flatMap_congr_mem h2]
  have h3 : ((profilesByProvince profiles).flatMap fun e =>
        if (mapGet cmap e.1).isSome
        then profiles.filter fun p => profileProvinceName p = some e.1
        else [])
      = (((profilesByProvince profiles).map Prod.fst).flatMap fun n =>
          if (mapGet cmap n).isSome
          then profiles.filter fun p => profileProvinceName p = some n
          else []) :=
    (List.flatMap_map Prod.fst
      (fun n => if (mapGet cmap n).isSome
        then profiles.filter fun p => profileProvinceName p = some n
        else [])
      (profilesByProvince profiles)).symm
  rw [h3, flatMap_guard, flatMap_congr_mem h5]
  apply flatMap_filter_key_perm profileProvinceName
  · exact (nodup_fst_profilesByProvince profiles).filter _
  · intro p hp
    have hmarker : hasMarker cmap p = true := (List.mem_filter.mp hp).2
    have hpmem : p ∈ profiles := (List.mem_filter.mp hp).1
    cases hpn : profileProvinceName p with
    | none =>
      rw [hasMarker, hpn] at hmarker
      cases hmarker
    | some n =>
      have hs : (mapGet cmap n).isSome := by
        simpa [hasMarker, hpn] using hmarker
      have hne : profiles.filter (fun q => profileProvinceName q = some n) ≠ [] := by
        intro hz
        have hin : p ∈ profiles.filter fun q => profileProvinceName q = some n :=
          List.mem_filter.mpr ⟨hpmem, by simp [hpn]⟩
        rw [hz] at hin
        cases hin
      have hlook : mapGet (profilesByProvince profiles) n
          = some (profiles.filter fun q => profileProvinceName q = some n) := by
        rw [profilesByProvince_lookup, if_neg hne]
      have hmem : n ∈ (profilesByProvince profiles).map Prod.fst :=
        mem_fst_of_mapGet _ _ _ hlook
      exact ⟨n, List.mem_filter.mpr ⟨hmem, by simp [hs]⟩, rfl⟩

/-- C10 witness: of four profiles — province in the map, province not in the
map, no province, empty province name — only the first contributes a
marker. -/
theorem markers_match_profiles_witness :
    ((avatarMarkers [profileX, profileY, profileNoProv, profileBlank]
        [("X", ((5/2 : ℚ), (2 : ℚ)))]).map Marker.profile).Perm
      ([profileX, profileY, profileNoProv, profileBlank].filter
        (hasMarker [("X", ((5/2 : ℚ), (2 : ℚ)))]))
    ∧ ([profileX, profileY, profileNoProv, profileBlank].filter
        (hasMarker [("X", ((5/2 : ℚ), (2 : ℚ)))])) = [profileX] :=
  ⟨markers_match_profiles [dupFeatureSmall, dupFeatureLarge] _ _
      provinceCentroids_dup_eval,
    rfl⟩

end FintechMap
